import Mathlib

/-!
Verification of the Janus input-processing pipeline (the `interfaces/input`
tree) against its natural-language specification.  Python functions are
shallowly embedded as Lean functions; Python strings are sequences of
characters, so the Python string operations used by the code (startswith,
endswith, slicing) are embedded as operations on `String.data`.  The first
part of the file gives the definitions embedding the code (and, where a
claim calls for it, a claim-side definition); the second part proves the
theorems.
-/

namespace Janus

/-! ## Python string and ordering primitives -/


/-- Embeds Python `s.startswith(pre)`: `pre` is a character-prefix of `s`. -/
def pyStartswith (s pre : String) : Bool :=
  pre.data.isPrefixOf s.data

/-- Embeds Python `s.endswith(suf)`: `suf` is a character-suffix of `s`. -/
def pyEndswith (s suf : String) : Bool :=
  suf.data.isSuffixOf s.data

/-- Embeds the Python slice `s[:-n]`: all characters of `s` but the last `n`. -/
def pyDropRight (s : String) (n : Nat) : String :=
  ⟨s.data.take (s.data.length - n)⟩

/-- Embeds the Python slice `s[:n]`: the first `n` characters of `s`. -/
def pyTake (s : String) (n : Nat) : String :=
  ⟨s.data.take n⟩

/-- Lexicographic comparison of character sequences by code point, the order
Python uses to compare strings.  `lexLe l1 l2` holds iff `l1 ≤ l2`
lexicographically. -/
def lexLe : List Char → List Char → Bool
  | [], _ => true
  | _ :: _, [] => false
  | a :: as, b :: bs => if a < b then true else if b < a then false else lexLe as bs

/-- Embeds the comparison Python `sorted` uses on strings: lexicographic
order on the character sequences. -/
def pyStrLe (a b : String) : Prop := lexLe a.data b.data = true

instance : DecidableRel pyStrLe := fun _ _ => instDecidableEqBool _ _

def lexLe_cons_iff {a b : Char} {as bs : List Char} :
    lexLe (a :: as) (b :: bs) = true ↔ a < b ∨ (a = b ∧ lexLe as bs = true) := by
  rcases lt_trichotomy a b with h | h | h
  · simp [lexLe, h]
  · subst h; simp [lexLe, lt_irrefl]
  · simp [lexLe, h, asymm h, ne_of_gt h]

def lexLe_total (l1 l2 : List Char) : lexLe l1 l2 = true ∨ lexLe l2 l1 = true := by
  induction l1 generalizing l2 with
  | nil => exact Or.inl rfl
  | cons a as ih =>
    cases l2 with
    | nil => exact Or.inr rfl
    | cons b bs =>
      rcases lt_trichotomy a b with h | h | h
      · left; exact lexLe_cons_iff.mpr (Or.inl h)
      · subst h
        rcases ih bs with h2 | h2
        · exact Or.inl (lexLe_cons_iff.mpr (Or.inr ⟨rfl, h2⟩))
        · exact Or.inr (lexLe_cons_iff.mpr (Or.inr ⟨rfl, h2⟩))
      · right; exact lexLe_cons_iff.mpr (Or.inl h)

def lexLe_trans {l1 l2 l3 : List Char} (h12 : lexLe l1 l2 = true)
    (h23 : lexLe l2 l3 = true) : lexLe l1 l3 = true := by
  induction l1 generalizing l2 l3 with
  | nil => rfl
  | cons a as ih =>
    cases l2 with
    | nil => simp [lexLe] at h12
    | cons b bs =>
      cases l3 with
      | nil => simp [lexLe] at h23
      | cons c cs =>
        rcases lexLe_cons_iff.mp h12 with hab | ⟨hab, hab2⟩
        · rcases lexLe_cons_iff.mp h23 with hbc | ⟨hbc, _⟩
          · exact lexLe_cons_iff.mpr (Or.inl (hab.trans hbc))
          · exact lexLe_cons_iff.mpr (Or.inl (hbc ▸ hab))
        · rcases lexLe_cons_iff.mp h23 with hbc | ⟨hbc, hbc2⟩
          · exact lexLe_cons_iff.mpr (Or.inl (hab ▸ hbc))
          · exact lexLe_cons_iff.mpr (Or.inr ⟨hab.trans hbc, ih hab2 hbc2⟩)

def lexLe_antisymm {l1 l2 : List Char} (h12 : lexLe l1 l2 = true)
    (h21 : lexLe l2 l1 = true) : l1 = l2 := by
  induction l1 generalizing l2 with
  | nil =>
    cases l2 with
    | nil => rfl
    | cons b bs => simp [lexLe] at h21
  | cons a as ih =>
    cases l2 with
    | nil => simp [lexLe] at h12
    | cons b bs =>
      rcases lexLe_cons_iff.mp h12 with hab | ⟨hab, hab2⟩
      · rcases lexLe_cons_iff.mp h21 with hba | ⟨hba, _⟩
        · exact absurd hba (asymm hab)
        · exact absurd (hba ▸ hab) (lt_irrefl _)
      · rcases lexLe_cons_iff.mp h21 with hba | ⟨_, hba2⟩
        · exact absurd (hab ▸ hba) (lt_irrefl _)
        · rw [hab, ih hab2 hba2]

instance : IsTotal String pyStrLe := ⟨fun a b => lexLe_total a.data b.data⟩

instance : IsTrans String pyStrLe := ⟨fun _ _ _ => lexLe_trans⟩

instance : IsAntisymm String pyStrLe :=
  ⟨fun a b h1 h2 => by
    cases a with
    | mk da => cases b with
      | mk db => exact congrArg String.mk (lexLe_antisymm h1 h2)⟩

/-! ## Permission resolution (`authentication.py`, `PermissionResolver`) -/

/-- Embeds the accumulation loop of `PermissionResolver._expand_wildcards`:
each wildcard entry `X.*` contributes the target permissions with character
prefix `X.`, every other entry is kept verbatim, in order. -/
def expand_loop (wildcard_perms target_perms : List String) : List String :=
  match wildcard_perms with
  | [] => []
  | perm :: rest =>
    (if pyEndswith perm ".*" then
       target_perms.filter (fun p => pyStartswith p (pyDropRight perm 2 ++ "."))
     else [perm]) ++ expand_loop rest target_perms

/-- Embeds `PermissionResolver._expand_wildcards`: the loop above followed by
`list(set(expanded))`, which removes duplicates. -/
def expand_wildcards (wildcard_perms target_perms : List String) : List String :=
  (expand_loop wildcard_perms target_perms).dedup

/-- Embeds `PermissionResolver.compute_final_permissions`: wildcard expansion,
intersection with the user permissions (`set(expanded) & set(user)`), then
`sorted(...)`. -/
def compute_final_permissions (credential_permissions user_permissions : List String) :
    List String :=
  let expanded := expand_wildcards credential_permissions user_permissions
  let final_perms := (expanded.filter (fun p => decide (p ∈ user_permissions))).dedup
  List.insertionSort pyStrLe final_perms

/-- Formalises the wildcard-expansion set described by the spec sentence:
"expand every wildcard entry `X.*` in `credential_permissions` into all
entries of `user_permissions` with prefix `X.`; keep non-wildcard entries
verbatim; union these into an expanded set".  A permission `p` is in that
set iff some non-wildcard credential entry equals `p`, or some wildcard
credential entry `X.*` has `p` among the user permissions with prefix `X.`. -/
def SpecExpanded (credential_permissions user_permissions : List String) (p : String) : Prop :=
  (∃ c ∈ credential_permissions, ¬ pyEndswith c ".*" = true ∧ p = c) ∨
  (∃ c ∈ credential_permissions, pyEndswith c ".*" = true ∧ p ∈ user_permissions ∧
     pyStartswith p (pyDropRight c 2 ++ ".") = true)

/-! ## Input validation (`validation.py`, `InputValidator`) -/

/-- Models the part of the normalized-input mapping read by
`InputValidator._detect_content_type`: the value under the `text` key when
present (assumed to be a string, as the code calls `.startswith` on it), and
whether the `attachments` and `file` keys are present. -/
structure NormalizedInput where
  text : Option String
  attachments : Bool
  file : Bool

/-- Embeds `InputValidator._detect_content_type`: the `text` key is examined
first; only when it is absent are the `file` key and the unknown fallback
considered, and the `attachments` key is only consulted under a present
`text` key. -/
def detect_content_type (n : NormalizedInput) : String :=
  match n.text with
  | some text =>
    if pyStartswith text "/" || pyStartswith text "!" then "command"
    else if n.attachments then "text_with_attachments"
    else "text"
  | none => if n.file then "file_upload" else "unknown"

/-- Formalises claim C5 as stated: a flat precedence in which a leading `/`
or `!` on the text yields `command`, then presence of an `attachments` key
yields `text_with_attachments`, then presence of a `file` key yields
`file_upload`, and otherwise `text` when a `text` key is present, else
`unknown`. -/
def claim_content_type (n : NormalizedInput) : String :=
  if (match n.text with
      | some text => pyStartswith text "/" || pyStartswith text "!"
      | none => false) then "command"
  else if n.attachments then "text_with_attachments"
  else if n.file then "file_upload"
  else if n.text.isSome then "text"
  else "unknown"

/-- Formalises the amended claim C5: the heuristic is nested under the
presence of the `text` key.  When `text` is present: `command` on a leading
`/` or `!`, else `text_with_attachments` when the `attachments` key is
present, else `text`.  When `text` is absent: `file_upload` when the `file`
key is present, else `unknown`. -/
def amended_content_type (n : NormalizedInput) : String :=
  match n.text with
  | some text =>
    if pyStartswith text "/" || pyStartswith text "!" then "command"
    else if n.attachments then "text_with_attachments"
    else "text"
  | none => if n.file then "file_upload" else "unknown"

/-- Models the raw-input value examined by
`InputValidator._calculate_input_size`: a text string, a byte buffer, a
mapping (modelled as a list of string keys and string values), or any other
value represented by its Python string form. -/
inductive RawInput where
  | str (s : String)
  | bytes (b : List UInt8)
  | dict (m : List (String × String))
  | other (string_form : String)

/-- Models Python `json.dumps` on a mapping with plain string keys and
values (no characters that JSON escapes): `\x7b"k": "v", ...\x7d` with the
default separators. -/
def json_dumps (m : List (String × String)) : String :=
  "\x7b" ++
    String.intercalate ", "
      (m.map (fun kv => "\"" ++ kv.1 ++ "\": \"" ++ kv.2 ++ "\"")) ++
  "\x7d"

/-- Embeds `InputValidator._calculate_input_size`: UTF-8 byte length for
strings, buffer length for bytes, the UTF-8 length of the JSON serialization
for mappings, and the UTF-8 length of the string form otherwise. -/
def calculate_input_size : RawInput → Nat
  | .str s => s.utf8ByteSize
  | .bytes b => b.length
  | .dict m => (json_dumps m).utf8ByteSize
  | .other string_form => string_form.utf8ByteSize

/-! ## Event id generation (`processing.py`, `EventBuilder.generate_event_ids`) -/

/-- Models the fields of `AuthContext` (`models.py`) consulted by the
embedded functions. -/
structure AuthContext where
  user_id : String
  source_type : String
  source_id : String
  granted_permissions : List String
  session_id : Option String

/-- Models the fields of `ProcessingContext` (`models.py`) consulted by
`EventBuilder.generate_event_ids`. -/
structure ProcessingContext where
  auth_context : AuthContext
  stream_id : Option String

/-- Models the dictionary of ids returned by
`EventBuilder.generate_event_ids`. -/
structure EventIds where
  event_id : String
  stream_id : String
  trace_id : String

/-- Embeds the Python expression `a or b` for an optional string `a`: the
value of `a` when it is truthy (present and non-empty), else `b`. -/
def pyOrStr (a : Option String) (b : String) : String :=
  match a with
  | some s => if s = "" then b else s
  | none => b

/-- Embeds `EventBuilder.generate_event_ids`.  The freshly generated UUIDs
are nondeterministic, so they enter the embedding as the parameters
`event_id` and `trace_id`; the stream id is the chain
`processing_context.stream_id or auth_context.session_id or
"stream_" + event_id[:8]`. -/
def generate_event_ids (processing_context : ProcessingContext)
    (event_id trace_id : String) : EventIds :=
  { event_id := event_id
    stream_id :=
      pyOrStr processing_context.stream_id
        (pyOrStr processing_context.auth_context.session_id
          ("stream_" ++ pyTake event_id 8))
    trace_id := trace_id }

/-- Formalises the phrase "when set" of claim C9: the optional string holds
a non-empty value.  This is exactly when the Python value is truthy. -/
def IsSet (o : Option String) : Prop := ∃ s, o = some s ∧ s ≠ ""

/-! ## Capability registry (`capabilities.py`, `CapabilityRegistry`) -/

/-- Embeds the body of the candidate-intersection loop of
`find_best_provider_for_requirements`: starting from `None`, the first
capability installs its provider set, and each further capability intersects
(modelled as a filter on the accumulated duplicate-free list). -/
def candidates_step (findProviders : String → List String)
    (acc : Option (List String)) (capability : String) : Option (List String) :=
  match acc with
  | none => some ((findProviders capability).dedup)
  | some s => some (s.filter (fun p => decide (p ∈ findProviders capability)))

/-- Intersection of an accumulated provider list with the provider sets of a
list of capabilities, by repeated filtering. -/
def filter_caps (findProviders : String → List String) (caps : List String)
    (s : List String) : List String :=
  caps.foldl (fun s2 capability => s2.filter (fun p => decide (p ∈ findProviders capability))) s

/-- Embeds `CapabilityRegistry.find_best_provider_for_requirements`.  The
abstract query `find_providers_with_capability` enters as the parameter
`findProviders`.  Python sets are modelled as duplicate-free lists; the
final `list(candidate_providers)[0]` is modelled as `head?` (it is only
reached on a non-empty candidate list). -/
def find_best_provider_for_requirements (findProviders : String → List String)
    (required_capabilities : List String)
    (preferred_providers : Option (List String)) : Option String :=
  let candidate_providers : Option (List String) :=
    required_capabilities.foldl (candidates_step findProviders) none
  match candidate_providers with
  | none => none
  | some cs =>
    if cs = [] then none
    else
      let remaining :=
        match preferred_providers with
        | none => cs
        | some ps =>
          if ps = [] then cs
          else if cs.filter (fun p => decide (p ∈ ps)) = [] then cs
          else cs.filter (fun p => decide (p ∈ ps))
      remaining.head?

/-! ## Pipeline orchestration (`pipeline.py`, `InputPipeline`) -/

/-- Models the fields of `janus.core.ProcessingError` (and its subclasses
such as `AuthenticationError`) carried into `PipelineError.stage_errors`.
Modelled from the spec: the `janus.core` module is outside the analysed
tree; the spec says every error carries a stable `error_type` tag and a
human-readable `message`. -/
structure StageError where
  error_type : String
  message : String

/-- Models `PipelineError` (`pipeline.py`).  Its `pipeline_context` mapping
is modelled by its two possible entries: the pipeline id and the optional
exception text. -/
structure PipelineError where
  error_type : String
  message : String
  component : String
  failed_stage : String
  pipeline_context_pipeline_id : String
  pipeline_context_exception : Option String
  stage_errors : List StageError

/-- Models the fields of `ValidatedInput` (`models.py`) relevant to the
embedding. -/
structure ValidatedInput where
  raw_input : RawInput
  normalized_input : NormalizedInput
  content_type : String
  input_size_bytes : Nat

/-- Models the fields of `JanusEvent` relevant to the embedding.  Modelled
from the spec: `JanusEvent` lives in `janus.core`, outside the analysed
tree; the spec lists `event_id`, `stream_id`, `event_type`, `trace_id`
among its fields. -/
structure JanusEvent where
  event_id : String
  stream_id : String
  event_type : String
  trace_id : String

/-- Models the fields of `PipelineResult` (`pipeline.py`) manipulated by the
stage helpers; `stage_timings` is an insertion-ordered association list as a
Python dict. -/
structure PipelineResult where
  event : Option JanusEvent
  success : Bool
  error : Option PipelineError
  stage_timings : List (String × Nat)
  stages_completed : List String
  pipeline_id : String

/-- Models the observable outcome of awaiting a collaborator call: it
returns a success result, returns an error result, or raises an unexpected
exception (carrying its text). -/
inductive CallOutcome (α : Type) where
  | ok (value : α)
  | err (e : StageError)
  | raised (exception_text : String)

/-- Models `janus.core.Result`.  Modelled from the spec: `janus.core` is
outside the analysed tree; the spec says each stage "returns a result type
(success-or-error)". -/
inductive JResult (α ε : Type) where
  | success (value : α)
  | error (e : ε)

/-- Embeds a Python dict assignment `m[k] = v` on an insertion-ordered
association list: an existing key keeps its position and gets the new
value, a new key is appended. -/
def dictSet (m : List (String × Nat)) (k : String) (v : Nat) : List (String × Nat) :=
  match m with
  | [] => [(k, v)]
  | (k2, v2) :: rest => if k2 = k then (k, v) :: rest else (k2, v2) :: dictSet rest k v

/-- Embeds a Python dict lookup `m.get(k)` on an insertion-ordered
association list. -/
def dictGet (m : List (String × Nat)) (k : String) : Option Nat :=
  match m with
  | [] => none
  | (k2, v2) :: rest => if k2 = k then some v2 else dictGet rest k

/-- Embeds `InputPipeline.create_pipeline_result` together with the field
defaults of `PipelineResult`: no event, not successful, no error, empty
timings and completions. -/
def create_pipeline_result (pipeline_id : String) : PipelineResult :=
  { event := none
    success := false
    error := none
    stage_timings := []
    stages_completed := []
    pipeline_id := pipeline_id }

/-- Embeds `InputPipeline.execute_authentication_stage`.  The outcome of
`authenticator.authenticate` and the elapsed stage time are parameters; the
helper records the timing on every path, appends the stage name on success
only, and converts both error results and raised exceptions into a
`PipelineError` for stage `"authentication"`. -/
def execute_authentication_stage (auth_outcome : CallOutcome AuthContext)
    (elapsed_ms : Nat) (result : PipelineResult) :
    PipelineResult × JResult AuthContext PipelineError :=
  match auth_outcome with
  | .ok auth =>
    let result := { result with
      stage_timings := dictSet result.stage_timings "authentication" elapsed_ms }
    ({ result with stages_completed := result.stages_completed ++ ["authentication"] },
     .success auth)
  | .err e =>
    let result := { result with
      stage_timings := dictSet result.stage_timings "authentication" elapsed_ms }
    (result,
     .error { error_type := "pipeline_error"
              message := "Authentication failed: " ++ e.message
              component := "InputPipeline"
              failed_stage := "authentication"
              pipeline_context_pipeline_id := result.pipeline_id
              pipeline_context_exception := none
              stage_errors := [e] })
  | .raised ex =>
    let result := { result with
      stage_timings := dictSet result.stage_timings "authentication" elapsed_ms }
    (result,
     .error { error_type := "pipeline_error"
              message := "Authentication stage failed: " ++ ex
              component := "InputPipeline"
              failed_stage := "authentication"
              pipeline_context_pipeline_id := result.pipeline_id
              pipeline_context_exception := some ex
              stage_errors := [] })

/-- Embeds `InputPipeline.execute_validation_stage`, analogous to the
authentication stage helper, for stage `"validation"`. -/
def execute_validation_stage (validation_outcome : CallOutcome ValidatedInput)
    (elapsed_ms : Nat) (result : PipelineResult) :
    PipelineResult × JResult ValidatedInput PipelineError :=
  match validation_outcome with
  | .ok validated =>
    let result := { result with
      stage_timings := dictSet result.stage_timings "validation" elapsed_ms }
    ({ result with stages_completed := result.stages_completed ++ ["validation"] },
     .success validated)
  | .err e =>
    let result := { result with
      stage_timings := dictSet result.stage_timings "validation" elapsed_ms }
    (result,
     .error { error_type := "pipeline_error"
              message := "Validation failed: " ++ e.message
              component := "InputPipeline"
              failed_stage := "validation"
              pipeline_context_pipeline_id := result.pipeline_id
              pipeline_context_exception := none
              stage_errors := [e] })
  | .raised ex =>
    let result := { result with
      stage_timings := dictSet result.stage_timings "validation" elapsed_ms }
    (result,
     .error { error_type := "pipeline_error"
              message := "Validation stage failed: " ++ ex
              component := "InputPipeline"
              failed_stage := "validation"
              pipeline_context_pipeline_id := result.pipeline_id
              pipeline_context_exception := some ex
              stage_errors := [] })

/-- Embeds `InputPipeline.execute_processing_stage`, analogous to the
authentication stage helper, for stage `"processing"`. -/
def execute_processing_stage (processing_outcome : CallOutcome JanusEvent)
    (elapsed_ms : Nat) (result : PipelineResult) :
    PipelineResult × JResult JanusEvent PipelineError :=
  match processing_outcome with
  | .ok event =>
    let result := { result with
      stage_timings := dictSet result.stage_timings "processing" elapsed_ms }
    ({ result with stages_completed := result.stages_completed ++ ["processing"] },
     .success event)
  | .err e =>
    let result := { result with
      stage_timings := dictSet result.stage_timings "processing" elapsed_ms }
    (result,
     .error { error_type := "pipeline_error"
              message := "Processing failed: " ++ e.message
              component := "InputPipeline"
              failed_stage := "processing"
              pipeline_context_pipeline_id := result.pipeline_id
              pipeline_context_exception := none
              stage_errors := [e] })
  | .raised ex =>
    let result := { result with
      stage_timings := dictSet result.stage_timings "processing" elapsed_ms }
    (result,
     .error { error_type := "pipeline_error"
              message := "Processing stage failed: " ++ ex
              component := "InputPipeline"
              failed_stage := "processing"
              pipeline_context_pipeline_id := result.pipeline_id
              pipeline_context_exception := some ex
              stage_errors := [] })

/-- Modelled from the spec: `InputPipeline.process` is abstract in the
analysed tree; spec section 4.6 fixes the driver as the three embedded
stage helpers run strictly in the order authentication, validation,
processing, stopping at the first failing stage with that stage's
`PipelineError`, and marking success with the produced event after all
three succeed.  The collaborator outcomes and per-stage elapsed times are
parameters. -/
def process_pipeline (auth_outcome : CallOutcome AuthContext)
    (validation_outcome : AuthContext → CallOutcome ValidatedInput)
    (processing_outcome : AuthContext → ValidatedInput → CallOutcome JanusEvent)
    (t_auth t_val t_proc : Nat) (r0 : PipelineResult) : PipelineResult :=
  let (r1, ares) := execute_authentication_stage auth_outcome t_auth r0
  match ares with
  | .error pe => { r1 with success := false, error := some pe }
  | .success auth =>
    let (r2, vres) := execute_validation_stage (validation_outcome auth) t_val r1
    match vres with
    | .error pe => { r2 with success := false, error := some pe }
    | .success validated =>
      let (r3, pres) :=
        execute_processing_stage (processing_outcome auth validated) t_proc r2
      match pres with
      | .error pe => { r3 with success := false, error := some pe }
      | .success event => { r3 with success := true, event := some event }

/-! ## Helper lemmas -/

theorem specExpanded_cons (c : String) (rest t : List String) (p : String) :
    SpecExpanded (c :: rest) t p ↔
      ((¬ pyEndswith c ".*" = true ∧ p = c) ∨
       (pyEndswith c ".*" = true ∧ p ∈ t ∧ pyStartswith p (pyDropRight c 2 ++ ".") = true)) ∨
      SpecExpanded rest t p := by
  unfold SpecExpanded
  constructor
  · rintro (⟨x, hx, hP⟩ | ⟨x, hx, hQ⟩)
    · rcases List.mem_cons.mp hx with rfl | hx2
      · exact Or.inl (Or.inl hP)
      · exact Or.inr (Or.inl ⟨x, hx2, hP⟩)
    · rcases List.mem_cons.mp hx with rfl | hx2
      · exact Or.inl (Or.inr hQ)
      · exact Or.inr (Or.inr ⟨x, hx2, hQ⟩)
  · rintro ((hP | hQ) | (⟨x, hx, hP⟩ | ⟨x, hx, hQ⟩))
    · exact Or.inl ⟨c, List.mem_cons_self c rest, hP⟩
    · exact Or.inr ⟨c, List.mem_cons_self c rest, hQ⟩
    · exact Or.inl ⟨x, List.mem_cons_of_mem c hx, hP⟩
    · exact Or.inr ⟨x, List.mem_cons_of_mem c hx, hQ⟩

theorem mem_expand_loop (w t : List String) (p : String) :
    p ∈ expand_loop w t ↔ SpecExpanded w t p := by
  induction w with
  | nil => simp [expand_loop, SpecExpanded]
  | cons c rest ih =>
    rw [specExpanded_cons, ← ih]
    by_cases hc : pyEndswith c ".*" = true
    · rw [expand_loop, if_pos hc]
      simp only [List.mem_append, List.mem_filter]
      constructor
      · rintro (⟨hpt, hps⟩ | hr)
        · exact Or.inl (Or.inr ⟨hc, hpt, hps⟩)
        · exact Or.inr hr
      · rintro ((⟨hnc, _⟩ | ⟨_, hpt, hps⟩) | hr)
        · exact absurd hc hnc
        · exact Or.inl ⟨hpt, hps⟩
        · exact Or.inr hr
    · rw [expand_loop, if_neg hc]
      simp only [List.cons_append, List.nil_append, List.mem_cons]
      constructor
      · rintro (hpc | hr)
        · exact Or.inl (Or.inl ⟨hc, hpc⟩)
        · exact Or.inr hr
      · rintro ((⟨_, hpc⟩ | ⟨hce, _⟩) | hr)
        · exact Or.inl hpc
        · exact absurd hce hc
        · exact Or.inr hr

theorem mem_expand_wildcards (w t : List String) (p : String) :
    p ∈ expand_wildcards w t ↔ SpecExpanded w t p := by
  rw [expand_wildcards, List.mem_dedup, mem_expand_loop]

theorem mem_compute_final_permissions (cred user : List String) (p : String) :
    p ∈ compute_final_permissions cred user ↔ SpecExpanded cred user p ∧ p ∈ user := by
  unfold compute_final_permissions
  rw [(List.perm_insertionSort _ _).mem_iff]
  simp [List.mem_dedup, List.mem_filter, mem_expand_wildcards]

theorem sorted_compute_final_permissions (cred user : List String) :
    (compute_final_permissions cred user).Sorted pyStrLe :=
  List.sorted_insertionSort _ _

theorem nodup_compute_final_permissions (cred user : List String) :
    (compute_final_permissions cred user).Nodup :=
  (List.perm_insertionSort _ _).symm.nodup (List.nodup_dedup _)

theorem specExpanded_ext {A A2 B B2 : List String} {p : String}
    (hA : ∀ x, x ∈ A ↔ x ∈ A2) (hB : ∀ x, x ∈ B ↔ x ∈ B2) :
    SpecExpanded A B p ↔ SpecExpanded A2 B2 p := by
  unfold SpecExpanded
  constructor
  · rintro (⟨c, hc, h⟩ | ⟨c, hc, hw, hm, hs⟩)
    · exact Or.inl ⟨c, (hA c).mp hc, h⟩
    · exact Or.inr ⟨c, (hA c).mp hc, hw, (hB p).mp hm, hs⟩
  · rintro (⟨c, hc, h⟩ | ⟨c, hc, hw, hm, hs⟩)
    · exact Or.inl ⟨c, (hA c).mpr hc, h⟩
    · exact Or.inr ⟨c, (hA c).mpr hc, hw, (hB p).mpr hm, hs⟩

theorem pyStartswith_self_dot (X : String) : pyStartswith X (X ++ ".") = false := by
  simp only [pyStartswith, String.data_append]
  rw [Bool.eq_false_iff]
  intro h
  have h2 := List.isPrefixOf_iff_prefix.mp h
  have h3 := h2.length_le
  simp at h3

theorem pyEndswith_wild (X : String) : pyEndswith (X ++ ".*") ".*" = true := by
  simp only [pyEndswith, String.data_append]
  rw [List.isSuffixOf_iff_suffix]
  exact List.suffix_append _ _

theorem pyDropRight_wild (X : String) : pyDropRight (X ++ ".*") 2 = X := by
  cases X with
  | mk dx =>
    simp only [pyDropRight, String.data_append]
    congr 1
    have h1 : (dx ++ ".*".data).length - 2 = dx.length := by
      simp [List.length_append]
    rw [h1]
    exact List.take_left dx _

theorem utf8Len_ascii {l : List Char} (h : ∀ c ∈ l, c.val ≤ 0x7F) :
    String.utf8Len l = l.length := by
  induction l with
  | nil => rfl
  | cons c cs ih =>
    rw [String.utf8Len_cons, ih (fun x hx => h x (List.mem_cons_of_mem c hx))]
    have h1 : c.utf8Size = 1 := by simp [Char.utf8Size, h c (List.mem_cons_self c cs)]
    rw [h1, List.length_cons]

theorem pyOrStr_of_not_set {o : Option String} (b : String) (h : ¬ IsSet o) :
    pyOrStr o b = b := by
  cases o with
  | none => rfl
  | some s =>
    have hs : s = "" := by
      by_contra hne
      exact h ⟨s, rfl, hne⟩
    rw [pyOrStr, if_pos hs]

theorem foldl_candidates_some (fp : String → List String) (caps : List String)
    (s : List String) :
    caps.foldl (candidates_step fp) (some s) = some (filter_caps fp caps s) := by
  induction caps generalizing s with
  | nil => rfl
  | cons c cs ih =>
    rw [List.foldl_cons]
    show cs.foldl (candidates_step fp) (some _) = _
    rw [ih]
    rfl

theorem mem_filter_caps (fp : String → List String) (caps : List String)
    (s : List String) (x : String) :
    x ∈ filter_caps fp caps s ↔ x ∈ s ∧ ∀ c ∈ caps, x ∈ fp c := by
  induction caps generalizing s with
  | nil => simp [filter_caps]
  | cons c cs ih =>
    show x ∈ filter_caps fp cs (s.filter _) ↔ _
    rw [ih]
    simp only [List.mem_filter, decide_eq_true_eq, List.forall_mem_cons]
    tauto

theorem head?_mem {l : List String} {a : String} (h : l.head? = some a) : a ∈ l := by
  cases l with
  | nil => simp at h
  | cons x xs =>
    simp only [List.head?_cons, Option.some.injEq] at h
    rw [← h]
    exact List.mem_cons_self x xs

theorem dictGet_dictSet (m : List (String × Nat)) (k : String) (v : Nat) :
    dictGet (dictSet m k v) k = some v := by
  induction m with
  | nil => simp [dictSet, dictGet]
  | cons kv rest ih =>
    obtain ⟨k2, v2⟩ := kv
    by_cases h : k2 = k
    · rw [dictSet, if_pos h, dictGet, if_pos rfl]
    · rw [dictSet, if_neg h, dictGet, if_neg h]
      exact ih

/-! ## Claim theorems -/

/-- Claim C1: `compute_final_permissions` returns exactly the result of the
spec algorithm — membership is characterised by the spec expansion set
(`SpecExpanded`) intersected with the user permissions, the returned list is
sorted lexicographically and duplicate-free, and the spec example computes to
`["chat", "tools.calculator"]`. -/
theorem claim_C1_compute_final_permissions :
    (∀ cred user p, p ∈ compute_final_permissions cred user ↔
       SpecExpanded cred user p ∧ p ∈ user) ∧
    (∀ cred user, (compute_final_permissions cred user).Sorted pyStrLe ∧
       (compute_final_permissions cred user).Nodup) ∧
    compute_final_permissions ["chat", "tools.*"]
        ["chat", "tools.calculator", "memory.read"] =
      ["chat", "tools.calculator"] :=
  ⟨mem_compute_final_permissions,
   fun cred user =>
     ⟨sorted_compute_final_permissions cred user, nodup_compute_final_permissions cred user⟩,
   by decide⟩

/-- Claim C2: every granted permission is a member of the user permissions
and of the wildcard expansion of the credential permissions. -/
theorem claim_C2_granted_subset (cred user : List String) (p : String)
    (h : p ∈ compute_final_permissions cred user) :
    p ∈ user ∧ p ∈ expand_wildcards cred user := by
  have h2 := (mem_compute_final_permissions cred user p).mp h
  exact ⟨h2.2, (mem_expand_wildcards cred user p).mpr h2.1⟩

theorem claim_C2_witness :
    "tools.calculator" ∈ ["chat", "tools.calculator", "memory.read"] ∧
    "tools.calculator" ∈
      expand_wildcards ["chat", "tools.*"] ["chat", "tools.calculator", "memory.read"] :=
  claim_C2_granted_subset ["chat", "tools.*"] ["chat", "tools.calculator", "memory.read"]
    "tools.calculator" (by decide)

/-- Claim C3: in a pipeline run, a failed authentication stage leaves
neither `"validation"` nor `"processing"` in `stages_completed`; a failed
validation stage leaves exactly `["authentication"]`; and each stage name
is appended exactly when the stage succeeds, so a fully successful run
completes all three stages in order. -/
theorem claim_C3_fixed_order
    (auth_outcome : CallOutcome AuthContext)
    (validation_outcome : AuthContext → CallOutcome ValidatedInput)
    (processing_outcome : AuthContext → ValidatedInput → CallOutcome JanusEvent)
    (t_auth t_val t_proc : Nat) (pid : String) :
    ((∀ a, auth_outcome ≠ CallOutcome.ok a) →
       "validation" ∉ (process_pipeline auth_outcome validation_outcome processing_outcome
           t_auth t_val t_proc (create_pipeline_result pid)).stages_completed ∧
       "processing" ∉ (process_pipeline auth_outcome validation_outcome processing_outcome
           t_auth t_val t_proc (create_pipeline_result pid)).stages_completed) ∧
    (∀ a, auth_outcome = CallOutcome.ok a →
       (∀ v, validation_outcome a ≠ CallOutcome.ok v) →
       (process_pipeline auth_outcome validation_outcome processing_outcome
           t_auth t_val t_proc (create_pipeline_result pid)).stages_completed =
         ["authentication"]) ∧
    (∀ a v e, auth_outcome = CallOutcome.ok a → validation_outcome a = CallOutcome.ok v →
       processing_outcome a v = CallOutcome.ok e →
       (process_pipeline auth_outcome validation_outcome processing_outcome
           t_auth t_val t_proc (create_pipeline_result pid)).stages_completed =
         ["authentication", "validation", "processing"]) := by
  refine ⟨?_, ?_, ?_⟩
  · intro hfail
    cases auth_outcome with
    | ok a => exact absurd rfl (hfail a)
    | err e =>
      simp [process_pipeline, execute_authentication_stage, create_pipeline_result]
    | raised ex =>
      simp [process_pipeline, execute_authentication_stage, create_pipeline_result]
  · intro a ha hvfail
    subst ha
    cases hv : validation_outcome a with
    | ok v => exact absurd hv (hvfail v)
    | err e =>
      simp [process_pipeline, execute_authentication_stage, execute_validation_stage,
        create_pipeline_result, hv]
    | raised ex =>
      simp [process_pipeline, execute_authentication_stage, execute_validation_stage,
        create_pipeline_result, hv]
  · intro a v e ha hv he
    subst ha
    simp [process_pipeline, execute_authentication_stage, execute_validation_stage,
      execute_processing_stage, create_pipeline_result, hv, he]

theorem claim_C3_witness :
    "validation" ∉ (process_pipeline (CallOutcome.err ⟨"authentication_error", "bad signature"⟩)
        (fun _ => CallOutcome.err ⟨"validation_error", "unused"⟩)
        (fun _ _ => CallOutcome.err ⟨"processing_error", "unused"⟩)
        3 0 0 (create_pipeline_result "pipeline_1")).stages_completed ∧
    "processing" ∉ (process_pipeline (CallOutcome.err ⟨"authentication_error", "bad signature"⟩)
        (fun _ => CallOutcome.err ⟨"validation_error", "unused"⟩)
        (fun _ _ => CallOutcome.err ⟨"processing_error", "unused"⟩)
        3 0 0 (create_pipeline_result "pipeline_1")).stages_completed :=
  (claim_C3_fixed_order (CallOutcome.err ⟨"authentication_error", "bad signature"⟩)
      (fun _ => CallOutcome.err ⟨"validation_error", "unused"⟩)
      (fun _ _ => CallOutcome.err ⟨"processing_error", "unused"⟩)
      3 0 0 "pipeline_1").1
    (fun a h => by simp at h)

/-- Claim C4: every stage helper records the stage timing on success and on
failure; on a collaborator error result or a raised exception it returns an
error `Result` whose `PipelineError` names the failed stage and carries the
pipeline id in its context, preserving the underlying stage error in
`stage_errors` in the error-result case; a raised exception is converted
into the same structured error rather than propagating. -/
theorem claim_C4_stage_boundaries :
    (∀ (o : CallOutcome AuthContext) (t : Nat) (r : PipelineResult),
       dictGet (execute_authentication_stage o t r).1.stage_timings "authentication" =
         some t ∧
       (∀ e, o = CallOutcome.err e →
          ∃ pe, (execute_authentication_stage o t r).2 = JResult.error pe ∧
            pe.failed_stage = "authentication" ∧
            pe.pipeline_context_pipeline_id = r.pipeline_id ∧
            pe.stage_errors = [e]) ∧
       (∀ ex, o = CallOutcome.raised ex →
          ∃ pe, (execute_authentication_stage o t r).2 = JResult.error pe ∧
            pe.failed_stage = "authentication" ∧
            pe.pipeline_context_pipeline_id = r.pipeline_id ∧
            pe.pipeline_context_exception = some ex)) ∧
    (∀ (o : CallOutcome ValidatedInput) (t : Nat) (r : PipelineResult),
       dictGet (execute_validation_stage o t r).1.stage_timings "validation" = some t ∧
       (∀ e, o = CallOutcome.err e →
          ∃ pe, (execute_validation_stage o t r).2 = JResult.error pe ∧
            pe.failed_stage = "validation" ∧
            pe.pipeline_context_pipeline_id = r.pipeline_id ∧
            pe.stage_errors = [e]) ∧
       (∀ ex, o = CallOutcome.raised ex →
          ∃ pe, (execute_validation_stage o t r).2 = JResult.error pe ∧
            pe.failed_stage = "validation" ∧
            pe.pipeline_context_pipeline_id = r.pipeline_id ∧
            pe.pipeline_context_exception = some ex)) ∧
    (∀ (o : CallOutcome JanusEvent) (t : Nat) (r : PipelineResult),
       dictGet (execute_processing_stage o t r).1.stage_timings "processing" = some t ∧
       (∀ e, o = CallOutcome.err e →
          ∃ pe, (execute_processing_stage o t r).2 = JResult.error pe ∧
            pe.failed_stage = "processing" ∧
            pe.pipeline_context_pipeline_id = r.pipeline_id ∧
            pe.stage_errors = [e]) ∧
       (∀ ex, o = CallOutcome.raised ex →
          ∃ pe, (execute_processing_stage o t r).2 = JResult.error pe ∧
            pe.failed_stage = "processing" ∧
            pe.pipeline_context_pipeline_id = r.pipeline_id ∧
            pe.pipeline_context_exception = some ex)) := by
  refine ⟨fun o t r => ?_, fun o t r => ?_, fun o t r => ?_⟩
  · cases o with
    | ok a =>
      refine ⟨by simp [execute_authentication_stage, dictGet_dictSet], ?_, ?_⟩
      · intro e he; simp at he
      · intro ex hex; simp at hex
    | err e0 =>
      refine ⟨by simp [execute_authentication_stage, dictGet_dictSet], ?_, ?_⟩
      · intro e he
        obtain rfl : e0 = e := by injection he
        exact ⟨_, rfl, rfl, rfl, rfl⟩
      · intro ex hex; simp at hex
    | raised ex0 =>
      refine ⟨by simp [execute_authentication_stage, dictGet_dictSet], ?_, ?_⟩
      · intro e he; simp at he
      · intro ex hex
        obtain rfl : ex0 = ex := by injection hex
        exact ⟨_, rfl, rfl, rfl, rfl⟩
  · cases o with
    | ok a =>
      refine ⟨by simp [execute_validation_stage, dictGet_dictSet], ?_, ?_⟩
      · intro e he; simp at he
      · intro ex hex; simp at hex
    | err e0 =>
      refine ⟨by simp [execute_validation_stage, dictGet_dictSet], ?_, ?_⟩
      · intro e he
        obtain rfl : e0 = e := by injection he
        exact ⟨_, rfl, rfl, rfl, rfl⟩
      · intro ex hex; simp at hex
    | raised ex0 =>
      refine ⟨by simp [execute_validation_stage, dictGet_dictSet], ?_, ?_⟩
      · intro e he; simp at he
      · intro ex hex
        obtain rfl : ex0 = ex := by injection hex
        exact ⟨_, rfl, rfl, rfl, rfl⟩
  · cases o with
    | ok a =>
      refine ⟨by simp [execute_processing_stage, dictGet_dictSet], ?_, ?_⟩
      · intro e he; simp at he
      · intro ex hex; simp at hex
    | err e0 =>
      refine ⟨by simp [execute_processing_stage, dictGet_dictSet], ?_, ?_⟩
      · intro e he
        obtain rfl : e0 = e := by injection he
        exact ⟨_, rfl, rfl, rfl, rfl⟩
      · intro ex hex; simp at hex
    | raised ex0 =>
      refine ⟨by simp [execute_processing_stage, dictGet_dictSet], ?_, ?_⟩
      · intro e he; simp at he
      · intro ex hex
        obtain rfl : ex0 = ex := by injection hex
        exact ⟨_, rfl, rfl, rfl, rfl⟩

theorem claim_C4_witness :
    dictGet (execute_authentication_stage
        (CallOutcome.err ⟨"authentication_error", "bad credentials"⟩) 5
        (create_pipeline_result "pipeline_9")).1.stage_timings "authentication" = some 5 ∧
    ∃ pe, (execute_authentication_stage
        (CallOutcome.err ⟨"authentication_error", "bad credentials"⟩) 5
        (create_pipeline_result "pipeline_9")).2 = JResult.error pe ∧
      pe.failed_stage = "authentication" ∧
      pe.pipeline_context_pipeline_id = (create_pipeline_result "pipeline_9").pipeline_id ∧
      pe.stage_errors = [⟨"authentication_error", "bad credentials"⟩] :=
  ⟨(claim_C4_stage_boundaries.1 _ 5 (create_pipeline_result "pipeline_9")).1,
   (claim_C4_stage_boundaries.1 _ 5 (create_pipeline_result "pipeline_9")).2.1 _ rfl⟩

/-- Claim C5 counterexample: a normalized input with an `attachments` key but
no `text` key is classified `unknown` by the code, while the flat precedence
stated by the claim classifies it `text_with_attachments`. -/
theorem claim_C5_counterexample :
    detect_content_type ⟨none, true, false⟩ = "unknown" ∧
    claim_content_type ⟨none, true, false⟩ = "text_with_attachments" := by
  constructor <;> rfl

/-- Claim C5 (amended): `_detect_content_type` realises the nested heuristic
`amended_content_type`, and the three examples of the spec hold: text
`"/help"` is a command, text `"hello"` is plain text, and a `file` key
without a `text` key is a file upload. -/
theorem claim_C5_content_type :
    (∀ n, detect_content_type n = amended_content_type n) ∧
    detect_content_type ⟨some "/help", false, false⟩ = "command" ∧
    detect_content_type ⟨some "hello", false, false⟩ = "text" ∧
    detect_content_type ⟨none, false, true⟩ = "file_upload" :=
  ⟨fun n => rfl, by decide, by decide, rfl⟩

/-- Claim C6: the result of `compute_final_permissions` depends only on the
sets of elements of its two arguments, and is always sorted and
duplicate-free. -/
theorem claim_C6_set_extensional :
    (∀ A A2 B B2 : List String, (∀ x, x ∈ A ↔ x ∈ A2) → (∀ x, x ∈ B ↔ x ∈ B2) →
       compute_final_permissions A B = compute_final_permissions A2 B2) ∧
    (∀ A B, (compute_final_permissions A B).Sorted pyStrLe ∧
       (compute_final_permissions A B).Nodup) := by
  refine ⟨fun A A2 B B2 hA hB => ?_,
    fun A B => ⟨sorted_compute_final_permissions A B, nodup_compute_final_permissions A B⟩⟩
  have h1 : ∀ p, p ∈ compute_final_permissions A B ↔ p ∈ compute_final_permissions A2 B2 := by
    intro p
    rw [mem_compute_final_permissions, mem_compute_final_permissions]
    exact and_congr (specExpanded_ext hA hB) (hB p)
  exact List.eq_of_perm_of_sorted
    ((List.perm_ext_iff_of_nodup (nodup_compute_final_permissions A B)
        (nodup_compute_final_permissions A2 B2)).mpr h1)
    (sorted_compute_final_permissions A B) (sorted_compute_final_permissions A2 B2)

theorem claim_C6_witness :
    compute_final_permissions ["tools.*", "chat", "chat"]
        ["tools.calculator", "chat", "chat", "memory.read"] =
      compute_final_permissions ["chat", "tools.*"]
        ["chat", "tools.calculator", "memory.read"] :=
  claim_C6_set_extensional.1 _ _ _ _
    (fun x => by simp [List.mem_cons]; tauto)
    (fun x => by simp [List.mem_cons]; tauto)

/-- Claim C7 counterexample: with one registered provider `p1` and an EMPTY
required-capability list, the code returns `None`, although `p1` (vacuously)
supports every required capability — so "returns None exactly when no
provider supports all required capabilities" is false. -/
theorem claim_C7_counterexample :
    find_best_provider_for_requirements (fun _ => ["p1"]) [] none = none ∧
    (∀ c ∈ ([] : List String), "p1" ∈ (fun (_ : String) => ["p1"]) c) :=
  ⟨rfl, by simp⟩

/-- Claim C7 (amended): for an empty required list the function returns
`None`; for a non-empty required list it computes the intersection of the
provider sets of the required capabilities, restricts to the preferred
providers when that restriction is non-empty, returns a member of the
remaining candidates, and returns `None` exactly when no provider supports
all required capabilities. -/
theorem claim_C7_find_best_provider :
    (∀ (fp : String → List String) pref,
       find_best_provider_for_requirements fp [] pref = none) ∧
    (∀ (fp : String → List String) required pref, required ≠ [] →
       ((find_best_provider_for_requirements fp required pref = none ↔
          ¬ ∃ p, ∀ c ∈ required, p ∈ fp c) ∧
        (∀ p, find_best_provider_for_requirements fp required pref = some p →
           (∀ c ∈ required, p ∈ fp c) ∧
           (∀ ps, pref = some ps →
              (∃ q, (∀ c ∈ required, q ∈ fp c) ∧ q ∈ ps) → p ∈ ps)))) := by
  refine ⟨fun fp pref => rfl, fun fp required pref hne => ?_⟩
  cases required with
  | nil => exact absurd rfl hne
  | cons c rest =>
    have hfold : (c :: rest).foldl (candidates_step fp) none =
        some (filter_caps fp rest ((fp c).dedup)) := by
      rw [List.foldl_cons]
      exact foldl_candidates_some fp rest _
    have hmemL : ∀ x, x ∈ filter_caps fp rest ((fp c).dedup) ↔
        ∀ cc ∈ c :: rest, x ∈ fp cc := by
      intro x
      rw [mem_filter_caps, List.mem_dedup, List.forall_mem_cons]
    set L := filter_caps fp rest ((fp c).dedup) with hLdef
    have hunf : find_best_provider_for_requirements fp (c :: rest) pref =
        (if L = [] then none
         else
           (match pref with
            | none => L
            | some ps =>
              if ps = [] then L
              else if L.filter (fun p => decide (p ∈ ps)) = [] then L
              else L.filter (fun p => decide (p ∈ ps))).head?) := by
      unfold find_best_provider_for_requirements
      rw [hfold]
    by_cases hL0 : L = []
    · rw [hunf, if_pos hL0]
      constructor
      · constructor
        · rintro - ⟨p, hp⟩
          have hmem : p ∈ L := (hmemL p).mpr hp
          rw [hL0] at hmem
          exact List.not_mem_nil p hmem
        · intro _
          rfl
      · intro p hp
        exact absurd hp (by simp)
    · rw [hunf, if_neg hL0]
      set R := (match pref with
        | none => L
        | some ps =>
          if ps = [] then L
          else if L.filter (fun p => decide (p ∈ ps)) = [] then L
          else L.filter (fun p => decide (p ∈ ps))) with hRdef
      have hprops : (∀ x ∈ R, x ∈ L) ∧ R ≠ [] := by
        rw [hRdef]
        cases pref with
        | none => exact ⟨fun x hx => hx, hL0⟩
        | some ps =>
          show (∀ x ∈ (if ps = [] then L
                else if L.filter (fun p => decide (p ∈ ps)) = [] then L
                else L.filter (fun p => decide (p ∈ ps))), x ∈ L) ∧
              (if ps = [] then L
               else if L.filter (fun p => decide (p ∈ ps)) = [] then L
               else L.filter (fun p => decide (p ∈ ps))) ≠ []
          split_ifs with h1 h2
          · exact ⟨fun x hx => hx, hL0⟩
          · exact ⟨fun x hx => hx, hL0⟩
          · exact ⟨fun x hx => List.mem_of_mem_filter hx, h2⟩
      constructor
      · constructor
        · intro h
          rw [List.head?_eq_none_iff] at h
          exact absurd h hprops.2
        · intro h
          exfalso
          obtain ⟨x, hx⟩ := List.exists_mem_of_ne_nil L hL0
          exact h ⟨x, (hmemL x).mp hx⟩
      · intro p hp
        have hpR : p ∈ R := head?_mem hp
        have hpL : p ∈ L := hprops.1 p hpR
        refine ⟨(hmemL p).mp hpL, ?_⟩
        rintro ps rfl ⟨q, hq, hqps⟩
        have hqL : q ∈ L := (hmemL q).mpr hq
        have hqf : q ∈ L.filter (fun x => decide (x ∈ ps)) :=
          List.mem_filter.mpr ⟨hqL, by simpa using hqps⟩
        have hfne : L.filter (fun x => decide (x ∈ ps)) ≠ [] :=
          List.ne_nil_of_mem hqf
        have hpsne : ps ≠ [] := List.ne_nil_of_mem hqps
        have hReq : R = L.filter (fun x => decide (x ∈ ps)) := by
          rw [hRdef]
          show (if ps = [] then L
                else if L.filter (fun x => decide (x ∈ ps)) = [] then L
                else L.filter (fun x => decide (x ∈ ps))) = _
          rw [if_neg hpsne, if_neg hfne]
        rw [hReq] at hpR
        have hmem := List.mem_filter.mp hpR
        simpa using hmem.2

theorem claim_C7_witness :
    ∀ c ∈ ["cap"], "p1" ∈ (fun (_ : String) => ["p1"]) c :=
  ((claim_C7_find_best_provider.2 (fun _ => ["p1"]) ["cap"] none (by decide)).2
    "p1" (by decide)).1

/-- Claim C8: `_calculate_input_size` returns the UTF-8 byte length of a
string, the length of a byte buffer, the size of the JSON serialization of a
mapping, and the byte length of the string form otherwise; a string of
exactly 10 ASCII characters yields 10. -/
theorem claim_C8_input_size :
    (∀ s, calculate_input_size (RawInput.str s) = s.utf8ByteSize) ∧
    (∀ b, calculate_input_size (RawInput.bytes b) = b.length) ∧
    (∀ m, calculate_input_size (RawInput.dict m) = (json_dumps m).utf8ByteSize) ∧
    (∀ s, calculate_input_size (RawInput.other s) = s.utf8ByteSize) ∧
    (∀ s : String, (∀ c ∈ s.data, c.val ≤ 0x7F) → s.length = 10 →
       calculate_input_size (RawInput.str s) = 10) := by
  refine ⟨fun s => rfl, fun b => rfl, fun m => rfl, fun s => rfl, fun s h h10 => ?_⟩
  cases s with
  | mk l =>
    show String.utf8ByteSize ⟨l⟩ = 10
    rw [String.utf8ByteSize_mk, utf8Len_ascii h]
    exact h10

theorem claim_C8_witness : calculate_input_size (RawInput.str "0123456789") = 10 :=
  claim_C8_input_size.2.2.2.2 "0123456789" (by decide) (by decide)

/-- Claim C9: the stream id follows the precedence explicit
`processing_context.stream_id` when set, else `auth_context.session_id` when
set, else an id derived from the generated event id. -/
theorem claim_C9_stream_id_precedence (ctx : ProcessingContext) (eid tid : String) :
    (∀ s, ctx.stream_id = some s → s ≠ "" →
       (generate_event_ids ctx eid tid).stream_id = s) ∧
    (¬ IsSet ctx.stream_id → ∀ s, ctx.auth_context.session_id = some s → s ≠ "" →
       (generate_event_ids ctx eid tid).stream_id = s) ∧
    (¬ IsSet ctx.stream_id → ¬ IsSet ctx.auth_context.session_id →
       (generate_event_ids ctx eid tid).stream_id = "stream_" ++ pyTake eid 8) := by
  refine ⟨fun s hs hne => ?_, fun h1 s hs hne => ?_, fun h1 h2 => ?_⟩
  · show pyOrStr ctx.stream_id _ = s
    rw [hs, pyOrStr, if_neg hne]
  · show pyOrStr ctx.stream_id _ = s
    rw [pyOrStr_of_not_set _ h1]
    rw [hs, pyOrStr, if_neg hne]
  · show pyOrStr ctx.stream_id _ = _
    rw [pyOrStr_of_not_set _ h1, pyOrStr_of_not_set _ h2]

theorem claim_C9_witness :
    (generate_event_ids ⟨⟨"u1", "api", "src1", [], some "sess42"⟩, none⟩
        "eventid-1234" "traceid-1").stream_id = "sess42" :=
  (claim_C9_stream_id_precedence ⟨⟨"u1", "api", "src1", [], some "sess42"⟩, none⟩
      "eventid-1234" "traceid-1").2.1
    (fun ⟨s, hs, _⟩ => by simp at hs) "sess42" rfl (by decide)

/-- Claim C10 counterexample: with `credential_permissions = ["a.*"]` and
`user_permissions = ["a.*"]` the wildcard string `a.*` IS contributed to the
result by its own expansion (the string `a.*` has character prefix `a.`), and
it is not a non-wildcard credential entry — so the claim that the wildcard
string itself is never contributed by its own expansion is false. -/
theorem claim_C10_counterexample :
    compute_final_permissions ["a.*"] ["a.*"] = ["a.*"] ∧
    pyEndswith "a.*" ".*" = true ∧
    pyStartswith "a.*" ("a" ++ ".") = true := by decide

/-- Claim C10 amended: a wildcard entry `X.*` matches exactly the user
permissions with character prefix `X.`; the bare string `X` does not have
prefix `X.`, so a bare permission `X` in the result always comes from a
non-wildcard credential entry equal to `X` or from a wildcard credential
entry DIFFERENT from `X.*` — but any user permission with prefix `X.`,
including the literal string `X.*` itself when the user holds it, is
contributed by the expansion of `X.*`. -/
theorem claim_C10_wildcard_expansion :
    (∀ (X : String) (user : List String) (p : String),
       p ∈ expand_wildcards [X ++ ".*"] user ↔
         p ∈ user ∧ pyStartswith p (X ++ ".") = true) ∧
    (∀ (X : String) (cred user : List String),
       X ∈ compute_final_permissions cred user →
         X ∈ user ∧
         ((∃ c ∈ cred, ¬ pyEndswith c ".*" = true ∧ X = c) ∨
          (∃ c ∈ cred, pyEndswith c ".*" = true ∧ c ≠ X ++ ".*" ∧
             pyStartswith X (pyDropRight c 2 ++ ".") = true))) := by
  constructor
  · intro X user p
    rw [mem_expand_wildcards]
    unfold SpecExpanded
    simp only [List.mem_singleton]
    constructor
    · rintro (⟨c, rfl, hnw, _⟩ | ⟨c, rfl, _, hm, hs⟩)
      · exact absurd (pyEndswith_wild X) hnw
      · rw [pyDropRight_wild] at hs
        exact ⟨hm, hs⟩
    · rintro ⟨hm, hs⟩
      exact Or.inr ⟨X ++ ".*", rfl, pyEndswith_wild X, hm, by rw [pyDropRight_wild]; exact hs⟩
  · intro X cred user h
    have h2 := (mem_compute_final_permissions cred user X).mp h
    refine ⟨h2.2, ?_⟩
    rcases h2.1 with ⟨c, hc, hnw, hx⟩ | ⟨c, hc, hw, _, hs⟩
    · exact Or.inl ⟨c, hc, hnw, hx⟩
    · refine Or.inr ⟨c, hc, hw, ?_, hs⟩
      intro hceq
      rw [hceq, pyDropRight_wild] at hs
      rw [pyStartswith_self_dot X] at hs
      exact Bool.false_ne_true hs

theorem claim_C10_witness :
    "chat" ∈ ["chat", "tools.calculator", "memory.read"] ∧
    ((∃ c ∈ ["chat", "tools.*"], ¬ pyEndswith c ".*" = true ∧ "chat" = c) ∨
     (∃ c ∈ ["chat", "tools.*"], pyEndswith c ".*" = true ∧ c ≠ "chat" ++ ".*" ∧
        pyStartswith "chat" (pyDropRight c 2 ++ ".") = true)) :=
  claim_C10_wildcard_expansion.2 "chat" ["chat", "tools.*"]
    ["chat", "tools.calculator", "memory.read"] (by decide)

end Janus
